import Mathlib

/-!
Verification development for the slack-bot-cleaner utility (src/main.go).

The program reads a YAML config (an API token, a list of conversation IDs,
a list of user IDs), resolves users to DM conversation IDs through the
Slack API, and deletes message history of each conversation page by page,
sleeping 30 seconds on rate-limit errors from the delete call.

The Slack client is an external collaborator; its calls are modelled as
oracles (functions from call index / argument to an `Except` outcome), and
the observable behaviour of each function is captured as a list of events
(fetch calls, delete calls with their timestamp argument, sleeps) together
with the returned value, so that claims about which calls are or are not
issued can be stated and proved.
-/

namespace SlackBotCleaner

/-- The `config` struct of main.go: `Token` (yaml `apitoken`),
`Convs` (yaml `conversation`), `Users` (yaml `userid`). -/
structure Config where
  token : String
  convs : List String
  users : List String
  deriving DecidableEq

/-- Test whether `pat` is a prefix of the character list `s`. -/
def hasPrefixChars : List Char → List Char → Bool
  | _, [] => true
  | [], _ :: _ => false
  | a :: as, b :: bs => a == b && hasPrefixChars as bs

/-- Test whether `pat` occurs as a contiguous sublist of `s`. -/
def containsChars : List Char → List Char → Bool
  | [], pat => pat.isEmpty
  | a :: as, pat => hasPrefixChars (a :: as) pat || containsChars as pat

/-- Model of Go `strings.Contains s sub`: true iff `sub` occurs inside `s`
(and always true for the empty pattern). -/
def strContains (s sub : String) : Bool :=
  containsChars s.toList sub.toList

/-- The literal rate-limit marker tested by `deleteConvo`:
`strings.Contains(err.Error(), "slack rate limit exceeded")`. -/
def rateLimitMsg : String := "slack rate limit exceeded"

/-- Function `validateYmlFile` of main.go: reject an empty token, then reject a
config where both the user list and the conversation list are empty,
otherwise return the config unchanged. -/
def validateYmlFile (c : Config) : Except String Config :=
  if c.token = "" then
    .error "invalid api token"
  else if c.users.length = 0 && c.convs.length = 0 then
    .error "Need either one user or conversation"
  else
    .ok c

/-- Error kinds of `readYmlFile`, classified by the call site that
produced them: `os.ReadFile` failure, `yaml.Unmarshal` failure, or a
`validateYmlFile` rejection. -/
inductive ConfigErr where
  | ioError (msg : String)
  | parseError (msg : String)
  | invalidConfig (msg : String)
  deriving DecidableEq

/-- Function `readYmlFile` of main.go. `readResult` stands for the outcome of
`os.ReadFile` and `parse` for `yaml.Unmarshal` (both external calls):
read the bytes, parse them, then validate the parsed config. -/
def readYmlFile (readResult : Except String String)
    (parse : String → Except String Config) : Except ConfigErr Config :=
  match readResult with
  | .error e => .error (.ioError e)
  | .ok b =>
    match parse b with
    | .error e => .error (.parseError e)
    | .ok c =>
      match validateYmlFile c with
      | .error e => .error (.invalidConfig e)
      | .ok c2 => .ok c2

/-- Functions `getConvoFromUser` and `getChannelIDFromUser` of main.go: open a DM with
the user via `api.OpenConversation` (the `resolve` oracle) and return the
channel ID, propagating any error. -/
def getConvoFromUser (resolve : String → Except String String)
    (u : String) : Except String String :=
  resolve u

/-- The user-resolution loop inside `getConvos`: resolve each user in
order, aborting with the first error (the partially built list is
discarded, as Go returns `nil, err`). The first component records which
users a resolution call was actually issued for, in order. -/
def resolveUsers (resolve : String → Except String String) :
    List String → List String × Except String (List String)
  | [] => ([], .ok [])
  | u :: rest =>
    match getConvoFromUser resolve u with
    | .error e => ([u], .error e)
    | .ok c =>
      match resolveUsers resolve rest with
      | (calls, .error e) => (u :: calls, .error e)
      | (calls, .ok cs) => (u :: calls, .ok (c :: cs))

/-- Function `getConvos` of main.go: when the configured conversation list is
empty, resolve every configured user; otherwise the loop is skipped and
the nil slice is returned (so the configured conversations are never
returned). First component: users actually resolved. -/
def getConvos (resolve : String → Except String String) (cfg : Config) :
    List String × Except String (List String) :=
  if cfg.convs.length = 0 then
    resolveUsers resolve cfg.users
  else
    ([], .ok [])

/-- A message as used by `deleteConvo`: only its timestamp matters. -/
structure Msg where
  timestamp : String
  deriving DecidableEq

/-- One page of conversation history returned by
`api.GetConversationHistory`: the messages and the `HasMore` flag. -/
structure HistoryPage where
  messages : List Msg
  hasMore : Bool
  deriving DecidableEq

/-- Observable events of `deleteConvo`: a history-fetch call, a delete
call (with the timestamp it was issued for), and a sleep of the given
number of seconds. -/
inductive Event where
  | fetch : Event
  | delete (timestamp : String) : Event
  | sleep (seconds : Nat) : Event
  deriving DecidableEq

/-- Result of the inner message loop of `deleteConvo`: the events it
emitted, the next delete-call index, and the error it returns (if a
delete failed with a non-rate-limit error). -/
structure DelResult where
  events : List Event
  nextIdx : Nat
  err : Option String
  deriving DecidableEq

/-- The inner `for _, m := range hist.Messages` loop of `deleteConvo`:
delete each message in page order via the `del` oracle (indexed by the
running count of delete calls). On a rate-limit error, sleep 30 seconds
and move on to the next message; on any other error, return it at once. -/
def deleteMsgs (del : Nat → Except String Unit) (dIdx : Nat) :
    List Msg → DelResult
  | [] => ⟨[], dIdx, none⟩
  | m :: rest =>
    match del dIdx with
    | .ok _ =>
      let r := deleteMsgs del (dIdx + 1) rest
      ⟨Event.delete m.timestamp :: r.events, r.nextIdx, r.err⟩
    | .error e =>
      if strContains e rateLimitMsg then
        let r := deleteMsgs del (dIdx + 1) rest
        ⟨Event.delete m.timestamp :: Event.sleep 30 :: r.events,
          r.nextIdx, r.err⟩
      else
        ⟨[Event.delete m.timestamp], dIdx + 1, some e⟩

deriving instance DecidableEq for Except

/-- Result of `deleteConvo`: the emitted events and the outcome
(`none` when the fuel bound was exhausted before the Go loop finished;
the Go loop itself has no such bound and may run any number of
iterations). -/
structure LoopResult where
  events : List Event
  outcome : Option (Except String Unit)
  deriving DecidableEq

/-- The `for !cont` loop of `deleteConvo`. `fetch` is the
`api.GetConversationHistory` oracle indexed by fetch-call count, `del`
the `api.DeleteMessage` oracle indexed by delete-call count. Faithful to
the source: a fetch error is returned; an empty page breaks out with
success; after processing the messages of a page the source sets
`cont = hist.HasMore` and the loop runs `for !cont`, so it stops (with
success) when `HasMore` is true and fetches again when `HasMore` is
false. -/
def deleteConvoLoop (fetch : Nat → Except String HistoryPage)
    (del : Nat → Except String Unit) :
    Nat → Nat → Nat → LoopResult
  | 0, _, _ => ⟨[], none⟩
  | fuel + 1, fIdx, dIdx =>
    match fetch fIdx with
    | .error e => ⟨[Event.fetch], some (.error e)⟩
    | .ok hist =>
      if hist.messages.length = 0 then
        ⟨[Event.fetch], some (.ok ())⟩
      else
        let r := deleteMsgs del dIdx hist.messages
        match r.err with
        | some e => ⟨Event.fetch :: r.events, some (.error e)⟩
        | none =>
          if hist.hasMore then
            ⟨Event.fetch :: r.events, some (.ok ())⟩
          else
            let r2 := deleteConvoLoop fetch del fuel (fIdx + 1) r.nextIdx
            ⟨Event.fetch :: r.events ++ r2.events, r2.outcome⟩

/-- Function `deleteConvo` of main.go, run with the given fuel bound on loop
iterations. -/
def deleteConvo (fetch : Nat → Except String HistoryPage)
    (del : Nat → Except String Unit) (fuel : Nat) : LoopResult :=
  deleteConvoLoop fetch del fuel 0 0

/-! ### Helper lemmas -/

/-- An empty token makes `validateYmlFile` fail with the token error. -/
theorem validateYmlFile_empty_token (c : Config) (h : c.token = "") :
    validateYmlFile c = .error "invalid api token" := by
  simp [validateYmlFile, h]

/-- If every user in the list resolves successfully (to `f u`), the
resolution loop calls each user once, in order, and returns one channel
ID per user, in order. -/
theorem resolveUsers_all_ok (resolve : String → Except String String)
    (f : String → String) :
    ∀ us : List String, (∀ u ∈ us, resolve u = .ok (f u)) →
      resolveUsers resolve us = (us, .ok (us.map f))
  | [], _ => by simp [resolveUsers]
  | u :: rest, h => by
    have hu : resolve u = .ok (f u) := h u (by simp)
    have ih := resolveUsers_all_ok resolve f rest (fun v hv => h v (by simp [hv]))
    simp [resolveUsers, getConvoFromUser, hu, ih]

/-- Any error the inner delete loop returns has non-rate-limit text:
rate-limited deletes are absorbed by the sleep branch. -/
theorem deleteMsgs_err_not_rateLimit (del : Nat → Except String Unit) :
    ∀ (msgs : List Msg) (dIdx : Nat) (e : String),
      (deleteMsgs del dIdx msgs).err = some e →
      strContains e rateLimitMsg = false
  | [], dIdx, e => by simp [deleteMsgs]
  | m :: rest, dIdx, e => by
    intro h
    cases hd : del dIdx with
    | ok _ =>
      simp [deleteMsgs, hd] at h
      exact deleteMsgs_err_not_rateLimit del rest (dIdx + 1) e h
    | error e2 =>
      cases hrl : strContains e2 rateLimitMsg with
      | true =>
        simp [deleteMsgs, hd, hrl] at h
        exact deleteMsgs_err_not_rateLimit del rest (dIdx + 1) e h
      | false =>
        simp [deleteMsgs, hd, hrl] at h
        exact h ▸ hrl

/-! ### Claims -/

/-- C1: for every configuration whose conversation list is non-empty,
`getConvos` issues no user-resolution calls and returns the empty list
with no error, regardless of the user list: the configured conversation
identifiers are never returned. -/
theorem c1_nonempty_conv_list_skips_resolution
    (resolve : String → Except String String) (cfg : Config)
    (h : cfg.convs ≠ []) :
    getConvos resolve cfg = ([], .ok []) := by
  have h0 : ¬cfg.convs.length = 0 := by
    simpa [List.length_eq_zero] using h
  simp [getConvos, h0]

theorem c1_witness :
    (Config.mk "tok" ["C123"] ["U1", "U2"]).convs ≠ [] ∧
    getConvos (fun u => .ok u) (Config.mk "tok" ["C123"] ["U1", "U2"]) =
      ([], .ok []) :=
  ⟨by decide,
   c1_nonempty_conv_list_skips_resolution (fun u => .ok u) _ (by decide)⟩

/-- C5: `validateYmlFile` rejects an empty token with the token error,
rejects a non-empty token with both target lists empty with the target
error, and accepts (returning the config unchanged) whenever the token is
non-empty and at least one target list is non-empty. -/
theorem c5_validate_config (c : Config) :
    (c.token = "" → validateYmlFile c = .error "invalid api token") ∧
    (c.token ≠ "" → c.users = [] → c.convs = [] →
      validateYmlFile c = .error "Need either one user or conversation") ∧
    (c.token ≠ "" → (c.users ≠ [] ∨ c.convs ≠ []) →
      validateYmlFile c = .ok c) := by
  refine ⟨fun h => validateYmlFile_empty_token c h,
    fun ht hu hc => ?_, fun ht hor => ?_⟩
  · simp [validateYmlFile, ht, hu, hc]
  · rcases hor with h | h
    · have h0 : ¬c.users.length = 0 := by simpa [List.length_eq_zero] using h
      simp [validateYmlFile, ht, h0]
    · have h0 : ¬c.convs.length = 0 := by simpa [List.length_eq_zero] using h
      simp [validateYmlFile, ht, h0]

theorem c5_witness :
    validateYmlFile (Config.mk "" [] []) = .error "invalid api token" ∧
    validateYmlFile (Config.mk "tok" [] []) =
      .error "Need either one user or conversation" ∧
    validateYmlFile (Config.mk "tok" ["C1"] []) =
      .ok (Config.mk "tok" ["C1"] []) :=
  ⟨(c5_validate_config (Config.mk "" [] [])).1 rfl,
   (c5_validate_config (Config.mk "tok" [] [])).2.1 (by decide) rfl rfl,
   (c5_validate_config (Config.mk "tok" ["C1"] [])).2.2 (by decide)
     (Or.inr (by decide))⟩

/-- C9: when a fetched page has zero messages, `deleteConvo` breaks out
of the loop at once with success: a single fetch event, no delete calls,
no further fetches. -/
theorem c9_empty_page_terminates (fetch : Nat → Except String HistoryPage)
    (del : Nat → Except String Unit) (fuel fIdx dIdx : Nat)
    (page : HistoryPage) (hf : fetch fIdx = .ok page)
    (hm : page.messages = []) :
    deleteConvoLoop fetch del (fuel + 1) fIdx dIdx =
      ⟨[Event.fetch], some (.ok ())⟩ := by
  simp [deleteConvoLoop, hf, hm]

def wFetchEmpty : Nat → Except String HistoryPage :=
  fun _ => .ok ⟨[], true⟩

theorem c9_witness :
    wFetchEmpty 0 = .ok ⟨[], true⟩ ∧
    (HistoryPage.mk [] true).messages = [] ∧
    deleteConvoLoop wFetchEmpty (fun _ => .ok ()) (0 + 1) 0 0 =
      ⟨[Event.fetch], some (.ok ())⟩ :=
  ⟨rfl, rfl,
   c9_empty_page_terminates wFetchEmpty (fun _ => .ok ()) 0 0 0 _ rfl rfl⟩

/-- C3: a delete call that fails with rate-limit-indicating text emits a
fixed 30-second sleep and then the loop moves on to the next message with
the next delete-call index (the failed delete is not retried), and the
error returned by the loop is exactly whatever the remaining messages
produce — the rate-limited failure itself contributes no error. -/
theorem c3_rate_limited_delete_dropped (del : Nat → Except String Unit)
    (dIdx : Nat) (m : Msg) (rest : List Msg) (e : String)
    (hd : del dIdx = .error e)
    (hrl : strContains e rateLimitMsg = true) :
    deleteMsgs del dIdx (m :: rest) =
      ⟨Event.delete m.timestamp :: Event.sleep 30 ::
          (deleteMsgs del (dIdx + 1) rest).events,
        (deleteMsgs del (dIdx + 1) rest).nextIdx,
        (deleteMsgs del (dIdx + 1) rest).err⟩ := by
  simp [deleteMsgs, hd, hrl]

def wDelRL : Nat → Except String Unit
  | 0 => .error rateLimitMsg
  | _ + 1 => .ok ()

theorem c3_witness :
    wDelRL 0 = .error rateLimitMsg ∧
    strContains rateLimitMsg rateLimitMsg = true ∧
    deleteMsgs wDelRL 0 (Msg.mk "m1" :: [Msg.mk "m2"]) =
      ⟨Event.delete "m1" :: Event.sleep 30 ::
          (deleteMsgs wDelRL (0 + 1) [Msg.mk "m2"]).events,
        (deleteMsgs wDelRL (0 + 1) [Msg.mk "m2"]).nextIdx,
        (deleteMsgs wDelRL (0 + 1) [Msg.mk "m2"]).err⟩ :=
  ⟨rfl, by decide,
   c3_rate_limited_delete_dropped wDelRL 0 (Msg.mk "m1") [Msg.mk "m2"]
     rateLimitMsg rfl (by decide)⟩

/-- C6: with an empty conversation list and every resolution call
succeeding, `getConvos` resolves each configured user exactly once, in
configured order, and returns exactly one conversation identifier per
user, in the same order. -/
theorem c6_one_id_per_user (resolve : String → Except String String)
    (cfg : Config) (f : String → String) (hc : cfg.convs = [])
    (hu : ∀ u ∈ cfg.users, resolve u = .ok (f u)) :
    getConvos resolve cfg = (cfg.users, .ok (cfg.users.map f)) := by
  simp [getConvos, hc, resolveUsers_all_ok resolve f cfg.users hu]

theorem c6_witness :
    (Config.mk "t" [] ["u1", "u2"]).convs = [] ∧
    getConvos (fun u => .ok ("D" ++ u)) (Config.mk "t" [] ["u1", "u2"]) =
      (["u1", "u2"], .ok ["Du1", "Du2"]) := by
  refine ⟨rfl, ?_⟩
  have h := c6_one_id_per_user (fun u => .ok ("D" ++ u))
    (Config.mk "t" [] ["u1", "u2"]) (fun u => "D" ++ u) rfl
    (fun u _ => rfl)
  exact h

/-- C7: with an empty conversation list, if the users before `u` all
resolve successfully and resolving `u` fails with error `e`, then
`getConvos` calls the resolver only for those users and `u` (the users
after `u` are never resolved) and fails with exactly `e`, returning no
identifiers. -/
theorem c7_resolution_failure_aborts
    (resolve : String → Except String String) (cfg : Config)
    (pre : List String) (u : String) (post : List String) (e : String)
    (hc : cfg.convs = []) (hus : cfg.users = pre ++ u :: post)
    (hpre : ∀ v ∈ pre, ∃ cid, resolve v = .ok cid)
    (hfail : resolve u = .error e) :
    getConvos resolve cfg = (pre ++ [u], .error e) := by
  have main : ∀ pre2 : List String,
      (∀ v ∈ pre2, ∃ cid, resolve v = .ok cid) →
      resolveUsers resolve (pre2 ++ u :: post) = (pre2 ++ [u], .error e) := by
    intro pre2 hpre2
    induction pre2 with
    | nil => simp [resolveUsers, getConvoFromUser, hfail]
    | cons p ps ih =>
      obtain ⟨cid, hcid⟩ := hpre2 p (by simp)
      have hrest := ih (fun v hv => hpre2 v (by simp [hv]))
      simp [resolveUsers, getConvoFromUser, hcid, hrest]
  simp [getConvos, hc, hus, main pre hpre]

def wResolve : String → Except String String :=
  fun u => if u = "bad" then .error "boom" else .ok u

theorem c7_witness :
    (Config.mk "t" [] ["g1", "bad", "g2"]).convs = [] ∧
    (Config.mk "t" [] ["g1", "bad", "g2"]).users = ["g1"] ++ "bad" :: ["g2"] ∧
    wResolve "bad" = .error "boom" ∧
    getConvos wResolve (Config.mk "t" [] ["g1", "bad", "g2"]) =
      (["g1"] ++ ["bad"], .error "boom") := by
  refine ⟨rfl, rfl, by decide, ?_⟩
  exact c7_resolution_failure_aborts wResolve _ ["g1"] "bad" ["g2"] "boom"
    rfl rfl
    (fun v hv => by
      simp at hv
      exact hv ▸ ⟨"g1", by decide⟩)
    (by decide)

/-- C10: whenever the file read succeeds and the YAML parse succeeds
(e.g. a syntactically valid document missing some or all expected
fields, which parses to a config with empty fields), `readYmlFile` never
fails with a parse error — any failure is the validation error — and
when the parsed token is empty (in particular when both target lists are
empty as well) the token check runs first, so the result is the
invalid-api-token error. -/
theorem c10_validation_precedence (b : String)
    (parse : String → Except String Config) (c : Config)
    (hp : parse b = .ok c) :
    (∀ e, readYmlFile (.ok b) parse ≠ .error (.parseError e)) ∧
    (c.token = "" →
      readYmlFile (.ok b) parse =
        .error (.invalidConfig "invalid api token")) := by
  constructor
  · intro e
    simp only [readYmlFile, hp]
    cases hv : validateYmlFile c <;> simp
  · intro ht
    simp only [readYmlFile, hp, validateYmlFile_empty_token c ht]

theorem c10_witness :
    (fun _ : String => (Except.ok (Config.mk "" [] []) : Except String Config)) "" =
      .ok (Config.mk "" [] []) ∧
    (Config.mk "" [] []).token = "" ∧
    readYmlFile (.ok "") (fun _ => .ok (Config.mk "" [] [])) =
      .error (.invalidConfig "invalid api token") :=
  ⟨rfl, rfl,
   (c10_validation_precedence "" (fun _ => .ok (Config.mk "" [] []))
     (Config.mk "" [] []) rfl).2 rfl⟩

/-- C4: a delete call failing with a non-rate-limit error aborts at once.
First part: if the messages before `m` are processed without terminal
error and the delete call for `m` fails with non-rate-limit error `e`,
the inner loop stops at `m` — its events are exactly those of the prefix
plus the one failing delete call (no deletes for the remaining messages)
— and returns `e`. Second part: when the inner loop returns an error,
`deleteConvo` returns that error after the single fetch that produced the
page, issuing no further fetches. -/
theorem c4_nonrate_limit_error_aborts :
    (∀ (del : Nat → Except String Unit) (dIdx : Nat) (pre : List Msg)
        (m : Msg) (post : List Msg) (e : String),
      (deleteMsgs del dIdx pre).err = none →
      del (deleteMsgs del dIdx pre).nextIdx = .error e →
      strContains e rateLimitMsg = false →
      deleteMsgs del dIdx (pre ++ m :: post) =
        ⟨(deleteMsgs del dIdx pre).events ++ [Event.delete m.timestamp],
          (deleteMsgs del dIdx pre).nextIdx + 1, some e⟩) ∧
    (∀ (fetch : Nat → Except String HistoryPage)
        (del : Nat → Except String Unit) (fuel fIdx dIdx : Nat)
        (page : HistoryPage) (e : String),
      fetch fIdx = .ok page →
      (deleteMsgs del dIdx page.messages).err = some e →
      deleteConvoLoop fetch del (fuel + 1) fIdx dIdx =
        ⟨Event.fetch :: (deleteMsgs del dIdx page.messages).events,
          some (.error e)⟩) := by
  constructor
  · intro del dIdx pre
    induction pre generalizing dIdx with
    | nil =>
      intro m post e _ hdel hrl
      simp only [deleteMsgs] at hdel
      simp [deleteMsgs, hdel, hrl]
    | cons p ps ih =>
      intro m post e hnone hdel hrl
      cases hp : del dIdx with
      | ok u =>
        simp only [deleteMsgs, hp] at hnone hdel
        have hih := ih (dIdx + 1) m post e hnone hdel hrl
        simp [deleteMsgs, hp, hih]
      | error e2 =>
        cases hrl2 : strContains e2 rateLimitMsg with
        | true =>
          simp only [deleteMsgs, hp, hrl2] at hnone hdel
          have hih := ih (dIdx + 1) m post e hnone hdel hrl
          simp [deleteMsgs, hp, hrl2, hih]
        | false =>
          simp [deleteMsgs, hp, hrl2] at hnone
  · intro fetch del fuel fIdx dIdx page e hf herr
    have hne : ¬page.messages.length = 0 := by
      intro hlen
      rw [List.length_eq_zero] at hlen
      rw [hlen] at herr
      simp [deleteMsgs] at herr
    simp [deleteConvoLoop, hf, hne, herr]

def wDelFail : Nat → Except String Unit
  | 0 => .ok ()
  | _ + 1 => .error "nope"

def wFetchThreeMsgs : Nat → Except String HistoryPage :=
  fun _ => .ok ⟨[Msg.mk "m1", Msg.mk "m2", Msg.mk "m3"], false⟩

theorem c4_witness :
    (deleteMsgs wDelFail 0 [Msg.mk "m1"]).err = none ∧
    wDelFail (deleteMsgs wDelFail 0 [Msg.mk "m1"]).nextIdx =
      .error "nope" ∧
    strContains "nope" rateLimitMsg = false ∧
    deleteMsgs wDelFail 0 ([Msg.mk "m1"] ++ Msg.mk "m2" :: [Msg.mk "m3"]) =
      ⟨(deleteMsgs wDelFail 0 [Msg.mk "m1"]).events ++
          [Event.delete "m2"],
        (deleteMsgs wDelFail 0 [Msg.mk "m1"]).nextIdx + 1, some "nope"⟩ ∧
    wFetchThreeMsgs 0 = .ok ⟨[Msg.mk "m1", Msg.mk "m2", Msg.mk "m3"], false⟩ ∧
    (deleteMsgs wDelFail 0
        (HistoryPage.mk [Msg.mk "m1", Msg.mk "m2", Msg.mk "m3"] false).messages).err =
      some "nope" ∧
    deleteConvoLoop wFetchThreeMsgs wDelFail (0 + 1) 0 0 =
      ⟨Event.fetch ::
          (deleteMsgs wDelFail 0
            (HistoryPage.mk [Msg.mk "m1", Msg.mk "m2", Msg.mk "m3"] false).messages).events,
        some (.error "nope")⟩ :=
  ⟨by decide, by decide, by decide,
   c4_nonrate_limit_error_aborts.1 wDelFail 0 [Msg.mk "m1"] (Msg.mk "m2")
     [Msg.mk "m3"] "nope" (by decide) (by decide) (by decide),
   rfl, by decide,
   c4_nonrate_limit_error_aborts.2 wFetchThreeMsgs wDelFail 0 0 0 _ "nope"
     rfl (by decide)⟩

/-- C8 counterexample: the history fetch is a platform call; when it
fails with the rate-limit-indicating text itself, `deleteConvo` returns
that error to the caller instead of handling it with the backoff — so a
rate-limit error can be surfaced as a terminal error. -/
theorem c8_counterexample :
    strContains rateLimitMsg rateLimitMsg = true ∧
    deleteConvo (fun _ => .error rateLimitMsg) (fun _ => .ok ()) 5 =
      ⟨[Event.fetch], some (.error rateLimitMsg)⟩ := by
  constructor
  · decide
  · decide

/-- C8 (amended): any history-fetch failure — rate-limit-indicating or
not — is returned directly with no backoff; and rate-limit errors from
delete calls are never surfaced: if the fetch oracle never fails with
rate-limit text, every error `deleteConvo` returns has non-rate-limit
text. -/
theorem c8_rate_limit_scope :
    (∀ (fetch : Nat → Except String HistoryPage)
        (del : Nat → Except String Unit) (fuel fIdx dIdx : Nat)
        (e : String),
      fetch fIdx = .error e →
      deleteConvoLoop fetch del (fuel + 1) fIdx dIdx =
        ⟨[Event.fetch], some (.error e)⟩) ∧
    (∀ (fetch : Nat → Except String HistoryPage)
        (del : Nat → Except String Unit),
      (∀ i e2, fetch i = .error e2 → strContains e2 rateLimitMsg = false) →
      ∀ (fuel fIdx dIdx : Nat) (e : String),
        (deleteConvoLoop fetch del fuel fIdx dIdx).outcome =
          some (.error e) →
        strContains e rateLimitMsg = false) := by
  constructor
  · intro fetch del fuel fIdx dIdx e hf
    simp [deleteConvoLoop, hf]
  · intro fetch del hok fuel
    induction fuel with
    | zero =>
      intro fIdx dIdx e h
      simp [deleteConvoLoop] at h
    | succ n ih =>
      intro fIdx dIdx e h
      cases hf : fetch fIdx with
      | error e2 =>
        simp [deleteConvoLoop, hf] at h
        exact h ▸ hok fIdx e2 hf
      | ok hist =>
        by_cases hlen : hist.messages.length = 0
        · simp [deleteConvoLoop, hf, hlen] at h
        · cases herr : (deleteMsgs del dIdx hist.messages).err with
          | some e2 =>
            simp [deleteConvoLoop, hf, hlen, herr] at h
            exact h ▸
              deleteMsgs_err_not_rateLimit del hist.messages dIdx e2 herr
          | none =>
            cases hmore : hist.hasMore with
            | true => simp [deleteConvoLoop, hf, hlen, herr, hmore] at h
            | false =>
              simp [deleteConvoLoop, hf, hlen, herr, hmore] at h
              exact ih (fIdx + 1)
                (deleteMsgs del dIdx hist.messages).nextIdx e h

def wFetchBoom : Nat → Except String HistoryPage :=
  fun _ => .error "boom"

def wFetchOneMsg : Nat → Except String HistoryPage :=
  fun _ => .ok ⟨[Msg.mk "m1"], false⟩

def wDelNope : Nat → Except String Unit :=
  fun _ => .error "nope"

theorem c8_rate_limit_scope_witness :
    wFetchBoom 0 = .error "boom" ∧
    deleteConvoLoop wFetchBoom wDelNope (4 + 1) 0 0 =
      ⟨[Event.fetch], some (.error "boom")⟩ ∧
    (deleteConvoLoop wFetchOneMsg wDelNope 1 0 0).outcome =
      some (.error "nope") ∧
    strContains "nope" rateLimitMsg = false :=
  ⟨rfl,
   c8_rate_limit_scope.1 wFetchBoom wDelNope 4 0 0 "boom" rfl,
   by decide,
   c8_rate_limit_scope.2 wFetchOneMsg wDelNope
     (fun i e2 h => nomatch h) 1 0 0 "nope" (by decide)⟩

/-- History oracle exhibiting the pagination defect: the first page has
two messages and reports `HasMore = true` (a further page with "m3"
exists), the second page holds "m3". -/
def c2FetchA : Nat → Except String HistoryPage
  | 0 => .ok ⟨[Msg.mk "m1", Msg.mk "m2"], true⟩
  | 1 => .ok ⟨[Msg.mk "m3"], false⟩
  | _ + 2 => .ok ⟨[], false⟩

/-- History oracle for the concrete example of the spec: one page with two
messages and `HasMore = false`, then an empty page. -/
def c2FetchB : Nat → Except String HistoryPage
  | 0 => .ok ⟨[Msg.mk "m1", Msg.mk "m2"], false⟩
  | _ + 1 => .ok ⟨[], false⟩

/-- C2 (evaluation at the failing input): the source sets
`cont = hist.HasMore` inside a `for !cont` loop, so pagination is
inverted. Against `c2FetchA` — first page reports more pages available
and "m3" sits on the second page — the run ends in success after a
single fetch and two deletes: the next page is never fetched and "m3" is
never deleted, contradicting both the pagination condition of the claim and
the comment on the function itself saying it deletes all history. Against
`c2FetchB` — first page reports no more pages — the run fetches *again*
(rather than terminating directly), then succeeds after the empty page;
the concrete example of the spec (two deletes, successful termination) does
hold there. -/
theorem c2_pagination_inverted :
    deleteConvo c2FetchA (fun _ => .ok ()) 10 =
      ⟨[Event.fetch, Event.delete "m1", Event.delete "m2"],
        some (.ok ())⟩ ∧
    deleteConvo c2FetchB (fun _ => .ok ()) 10 =
      ⟨[Event.fetch, Event.delete "m1", Event.delete "m2", Event.fetch],
        some (.ok ())⟩ := by
  constructor
  · decide
  · decide

end SlackBotCleaner
